import Mathlib

/-!
Verification of the NexGen dispatch-optimizer data-preparation and scoring
engine (src/app.py) against its natural-language specification.

Modelling conventions:
* Python/pandas floating-point numbers are modelled as exact rationals (ℚ);
  every division performed by the program has a nonzero divisor except where
  explicitly analysed (see the float-division model `floatDiv`).
* pandas missing values (NaN) in numeric columns are modelled as `Option ℚ`
  with `none` for a missing value.
* column names are modelled as lists of Unicode code points (`List ℕ`) for the
  Column Normalizer, and as `String` elsewhere.
* tables are modelled as lists of rows (order-preserving, duplicates allowed),
  matching the pandas row ordering semantics of `merge`, `fillna`, `apply`
  and `sort_values`.
-/

namespace NextGen

/-! ### Column Normalizer (src/app.py, `clean_col_names`, lines 32-43)

The code lowercases each header, replaces every character matched by the
regex `[\s\(\)/]` with an underscore, collapses runs of underscores
(`__+` → `_`) and strips leading/trailing underscores.  A header is modelled
as a list of code points. -/

/-- Code point of the underscore character. -/
def underscore : ℕ := 95

/-- Predicate for the characters replaced by an underscore by the regex
`[\s\(\)/]`: ASCII whitespace (space, tab, line feed, vertical tab, form
feed, carriage return), the two parentheses and the slash. -/
def isReplaced (c : ℕ) : Bool :=
  c = 32 || c = 9 || c = 10 || c = 11 || c = 12 || c = 13 ||
    c = 40 || c = 41 || c = 47

/-- ASCII lowercasing of a single code point, modelling `str.lower` on
header characters. -/
def lowerChar (c : ℕ) : ℕ := if 65 ≤ c ∧ c ≤ 90 then c + 32 else c

/-- Replacement step of `clean_col_names`: each character matched by
`[\s\(\)/]` becomes an underscore. -/
def replaceChar (c : ℕ) : ℕ := if isReplaced c then underscore else c

/-- Collapse every run of two or more consecutive underscores into a single
underscore, modelling `str.replace(r'__+', '_', regex=True)`. -/
def collapseUnderscores : List ℕ → List ℕ
  | [] => []
  | [c] => [c]
  | a :: b :: rest =>
    if a = underscore ∧ b = underscore then collapseUnderscores (b :: rest)
    else a :: collapseUnderscores (b :: rest)

/-- Test for the underscore character, as used by `str.strip('_')`. -/
def isUnd (c : ℕ) : Bool := c == underscore

/-- Remove leading and trailing underscores, modelling `str.strip('_')`. -/
def stripUnderscores (l : List ℕ) : List ℕ :=
  (l.dropWhile isUnd).rdropWhile isUnd

/-- Normalization of one column name performed by `clean_col_names`
(src/app.py lines 32-43): lowercase, replace whitespace, parentheses and
slashes by underscores, collapse repeated underscores, strip leading and
trailing underscores. -/
def clean_col_names (name : List ℕ) : List ℕ :=
  stripUnderscores (collapseUnderscores ((name.map lowerChar).map replaceChar))

/-! Auxiliary lemmas for the idempotence of `clean_col_names`. -/

/-- Relation holding between adjacent characters of a string with no run of
two consecutive underscores. -/
def notAdjUnd (a b : ℕ) : Prop := ¬(a = underscore ∧ b = underscore)

/-- Characters left fixed by both the lowercasing and the replacement step. -/
def fixedChar (c : ℕ) : Prop := lowerChar c = c ∧ replaceChar c = c

/-! ### Record Merger (src/app.py, lines 64-66)

The code performs `pd.merge(left, right, on='order_id', how='left')` three
times: performance, routes and costs are left-joined onto orders.  A left
join keeps every left row in order; each left row is paired with every
matching right row (matched by equal key), or with a missing value when the
right table has no match. -/

/-- Left outer join of `right` onto `left`, keyed by `ka`/`kb`, modelling
`pd.merge(left, right, on=key, how='left')`: every left row is kept in
order; a left row with `m` matches in `right` produces `m` output rows
(pandas fan-out on duplicate keys), and a left row with no match produces a
single row whose right-hand fields are missing. -/
def leftJoin {α β κ : Type} [DecidableEq κ] (ka : α → κ) (kb : β → κ)
    (left : List α) (right : List β) : List (α × Option β) :=
  left.flatMap (fun a =>
    match right.filter (fun b => decide (kb b = ka a)) with
    | [] => [(a, none)]
    | ms => ms.map (fun m => (a, some m)))

/-- Merged master table of src/app.py lines 64-66:
orders ⟕ performance ⟕ routes ⟕ costs, all keyed on the order id. -/
def master_df {O P R C κ : Type} [DecidableEq κ] (ko : O → κ) (kp : P → κ)
    (kr : R → κ) (kc : C → κ) (orders : List O) (performance : List P)
    (routes : List R) (costs : List C) :
    List (((O × Option P) × Option R) × Option C) :=
  leftJoin (fun x => ko x.1.1) kc
    (leftJoin (fun x => ko x.1) kr
      (leftJoin ko kp orders performance) routes) costs

/-! ### Imputation of missing numeric data (src/app.py, lines 70-82)

The merged table is modelled as a row count together with an association
list of named numeric columns; a column is a list of `Option ℚ` cells
(`none` is a pandas NaN).  The code iterates over the fixed list
`num_cols_to_fill`; an existing column is filled with its own median
(`fillna(median)`), an absent column is created with the value `0.0` in
every row. -/

/-- Tabular collection of named numeric columns with a fixed row count. -/
structure DataFrame where
  nrows : ℕ
  cols : List (String × List (Option ℚ))

/-- List of required numeric columns of src/app.py lines 72-75. -/
def num_cols_to_fill : List String :=
  ["distance_km", "traffic_delays_hours", "fuel_consumption_liters",
    "toll_charges", "delivery_cost", "customer_rating"]

/-- Column lookup by name (first match), modelling `master_df[col]`. -/
def lookupColList : List (String × List (Option ℚ)) → String →
    Option (List (Option ℚ))
  | [], _ => none
  | c :: cs, name => if c.1 = name then some c.2 else lookupColList cs name

/-- Column lookup on a data frame. -/
def lookupCol (df : DataFrame) (name : String) : Option (List (Option ℚ)) :=
  lookupColList df.cols name

/-- Replace every column named `name` by the new values, in place. -/
def replaceCols (name : String) (v : List (Option ℚ)) :
    List (String × List (Option ℚ)) → List (String × List (Option ℚ))
  | [] => []
  | c :: cs => (if c.1 = name then (name, v) else c) :: replaceCols name v cs

/-- Column assignment on the column list, modelling `master_df[col] = v`:
existing columns of that name are replaced in place; when no column of that
name exists the new column is appended at the end. -/
def setColList : List (String × List (Option ℚ)) → String → List (Option ℚ) →
    List (String × List (Option ℚ))
  | [], name, v => [(name, v)]
  | c :: cs, name, v =>
    if c.1 = name then (name, v) :: replaceCols name v cs
    else c :: setColList cs name v

/-- Column assignment on a data frame. -/
def setCol (df : DataFrame) (name : String) (v : List (Option ℚ)) : DataFrame :=
  ⟨df.nrows, setColList df.cols name v⟩

/-- pandas `Series.median()` with the default `skipna=True`: missing entries
are dropped and the remaining values sorted; the result is the middle value
(odd count) or the mean of the two middle values (even count).  The median
of an all-missing column is NaN, modelled as `none`. -/
def seriesMedian (col : List (Option ℚ)) : Option ℚ :=
  let vals := List.insertionSort (fun a b => a ≤ b) (col.filterMap id)
  if vals.length = 0 then none
  else if vals.length % 2 = 1 then some (vals.getD (vals.length / 2) 0)
  else some ((vals.getD (vals.length / 2 - 1) 0 + vals.getD (vals.length / 2) 0) / 2)

/-- pandas `Series.fillna(v)`: when `v` is NaN (the median of an all-missing
column) the column is returned unchanged; otherwise every missing entry
becomes `v`. -/
def fillnaCol (col : List (Option ℚ)) (v : Option ℚ) : List (Option ℚ) :=
  match v with
  | none => col
  | some m => col.map (fun x => some (x.getD m))

/-- One iteration of the imputation loop of src/app.py lines 76-82. -/
def imputeStep (df : DataFrame) (col : String) : DataFrame :=
  match lookupCol df col with
  | some c => setCol df col (fillnaCol c (seriesMedian c))
  | none => setCol df col (List.replicate df.nrows (some 0))

/-- Whole imputation pass of src/app.py lines 76-82: each required column is
processed in order. -/
def impute_missing (df : DataFrame) : DataFrame :=
  num_cols_to_fill.foldl imputeStep df

/-! ### Timestamp parsing and delay derivation (src/app.py, lines 85-89)

The code runs `pd.to_datetime(column, errors='coerce')` on the promised and
actual delivery columns, subtracts them, converts the difference to hours
via `.dt.total_seconds() / 3600`, and applies `fillna(0)`.  A timestamp is
modelled by its epoch second (ℤ); NaT is `none`. -/

/-- Raw cell of a delivery date/time column as seen by `pd.to_datetime`:
either a value that parses to a timestamp (modelled by its epoch second), a
value that fails to parse, or a missing cell. -/
inductive RawCell where
  | parses (t : ℤ)
  | unparseable
  | missing
deriving DecidableEq

/-- `pd.to_datetime(·, errors='coerce')` on one cell: a value that fails to
parse, or a missing cell, becomes NaT (`none`) instead of raising. -/
def to_datetime_coerce : RawCell → Option ℤ
  | .parses t => some t
  | .unparseable => none
  | .missing => none

/-- Timestamp subtraction; NaT propagates. -/
def tsSub (a p : Option ℤ) : Option ℤ :=
  match a, p with
  | some x, some y => some (x - y)
  | _, _ => none

/-- `.dt.total_seconds() / 3600` on one cell; NaT becomes NaN (`none`). -/
def secondsToHours (d : Option ℤ) : Option ℚ :=
  d.map (fun s => (s : ℚ) / 3600)

/-- Derived `delivery_delay_hours` value of a single row, including the
final `fillna(0)` of src/app.py line 89. -/
def delayRow (promised actual : RawCell) : ℚ :=
  (secondsToHours (tsSub (to_datetime_coerce actual) (to_datetime_coerce promised))).getD 0

/-- Derived `delivery_delay_hours` column (src/app.py lines 85-89). -/
def delivery_delay_hours (promised actual : List RawCell) : List ℚ :=
  List.zipWith delayRow promised actual

/-! ### Fleet data model and recommendation pipeline (src/app.py, lines 177-243)

A fleet row carries the four columns required by the Predictor plus the
vehicle id; an order carries the fields read by the recommendation logic.
All numbers are exact rationals. -/

/-- One row of the vehicle fleet table. -/
structure Vehicle where
  vehicle_id : String
  vehicle_type : String
  fuel_efficiency_km_per_l : ℚ
  co2_emissions_kg_per_km : ℚ
  capacity_kg : ℚ
deriving DecidableEq

instance : Inhabited Vehicle := ⟨⟨"", "", 0, 0, 0⟩⟩

/-- Fields of the selected order that the recommendation logic reads. -/
structure OrderDetails where
  order_id : String
  product_category : String
  special_handling : String
  origin : String
  destination : String
  distance_km : ℚ
  traffic_delays_hours : ℚ
  toll_charges : ℚ
deriving DecidableEq

/-- Fuel price constant of src/app.py line 20. -/
def ASSUMED_FUEL_PRICE_PER_LITER : ℚ := 1.5

/-- Labor cost constant of src/app.py line 21. -/
def ASSUMED_LABOR_COST_PER_HOUR : ℚ := 20

/-- Speed lookup `get_speed` of src/app.py lines 206-210. -/
def get_speed (v_type : String) : ℚ :=
  if v_type = "express bike" ∨ v_type = "van" then 60
  else if v_type = "truck" then 45
  else 50

/-- Perishability test of src/app.py line 181: the order's product category
is one of the two fixed perishable categories. -/
def is_perishable (category : String) : Bool :=
  category == "Food & Beverage" || category == "Healthcare"

/-- Candidate Filter of src/app.py lines 183-187: perishable orders get
exactly the refrigerated units, all other orders get exactly the
non-refrigerated vehicles.  Only `product_category` is consulted. -/
def suitable_vehicles (o : OrderDetails) (fleet : List Vehicle) : List Vehicle :=
  if is_perishable o.product_category then
    fleet.filter (fun v => v.vehicle_type == "refrigerated unit")
  else
    fleet.filter (fun v => !(v.vehicle_type == "refrigerated unit"))

/-- Fleet columns required before prediction (src/app.py line 195). -/
def required_fleet_cols : List String :=
  ["vehicle_type", "fuel_efficiency_km_per_l", "co2_emissions_kg_per_km", "capacity_kg"]

/-- Schema check of src/app.py line 197: every required fleet column name
must be present; only column names are inspected, never cell values. -/
def fleet_cols_check (cols : List String) : Bool :=
  required_fleet_cols.all (fun c => cols.contains c)

/-- Derived `avg_speed_kmh` column (src/app.py line 212). -/
def avg_speed_col (sv : List Vehicle) : List ℚ :=
  sv.map (fun v => get_speed v.vehicle_type)

/-- Derived `predicted_time_hours` column (src/app.py line 213). -/
def predicted_time_col (distance traffic : ℚ) (sv : List Vehicle) : List ℚ :=
  (avg_speed_col sv).map (fun s => distance / s + traffic)

/-- Derived `fuel_needed_liters` column (src/app.py line 216). -/
def fuel_needed_col (distance : ℚ) (sv : List Vehicle) : List ℚ :=
  sv.map (fun v => distance / v.fuel_efficiency_km_per_l)

/-- Derived fuel cost column (src/app.py line 217). -/
def fuel_cost_col (distance : ℚ) (sv : List Vehicle) : List ℚ :=
  (fuel_needed_col distance sv).map (fun f => f * ASSUMED_FUEL_PRICE_PER_LITER)

/-- Derived labor cost column (src/app.py line 218). -/
def labor_cost_col (distance traffic : ℚ) (sv : List Vehicle) : List ℚ :=
  (predicted_time_col distance traffic sv).map (fun h => h * ASSUMED_LABOR_COST_PER_HOUR)

/-- Derived `predicted_cost` column (src/app.py line 219). -/
def predicted_cost_col (distance traffic tolls : ℚ) (sv : List Vehicle) : List ℚ :=
  List.zipWith (fun f l => f + l + tolls) (fuel_cost_col distance sv)
    (labor_cost_col distance traffic sv)

/-- Derived `predicted_co2_kg` column (src/app.py line 223). -/
def predicted_co2_col (distance : ℚ) (sv : List Vehicle) : List ℚ :=
  sv.map (fun v => distance * v.co2_emissions_kg_per_km)

/-- `Series.min()` over a column; the code only normalizes non-empty
candidate sets, the empty-list value 0 is never consulted. -/
def listMin : List ℚ → ℚ
  | [] => 0
  | h :: t => t.foldl min h

/-- `Series.max()` over a column. -/
def listMax : List ℚ → ℚ
  | [] => 0
  | h :: t => t.foldl max h

/-- Min-max normalization `normalize` of src/app.py lines 225-230: when the
column has positive spread each value becomes (value − min) / (max − min);
otherwise the scalar 0.0 is assigned, broadcast to every row. -/
def normalize (col : List ℚ) : List ℚ :=
  if listMax col - listMin col > 0 then
    col.map (fun x => (x - listMin col) / (listMax col - listMin col))
  else col.map (fun _ => 0)

/-- Scored candidate row: one eligible vehicle together with the derived
prediction, normalization and score columns of src/app.py lines 212-240. -/
structure ScoredVehicle where
  vehicle : Vehicle
  avg_speed_kmh : ℚ
  predicted_time_hours : ℚ
  predicted_cost : ℚ
  predicted_co2_kg : ℚ
  norm_cost : ℚ
  norm_time : ℚ
  norm_co2 : ℚ
  optimization_score : ℚ
deriving DecidableEq

instance : Inhabited ScoredVehicle := ⟨⟨default, 0, 0, 0, 0, 0, 0, 0, 0⟩⟩

/-- Assembly of the scored candidate table (src/app.py lines 212-240): the
prediction columns are computed per vehicle, the three normalized columns
over the whole candidate set, and `optimization_score` is the weighted sum
of the normalized columns with the caller-supplied weights. -/
def score_rows (wc wt wco distance traffic tolls : ℚ) (sv : List Vehicle) :
    List ScoredVehicle :=
  let speeds := avg_speed_col sv
  let times := predicted_time_col distance traffic sv
  let costs := predicted_cost_col distance traffic tolls sv
  let co2s := predicted_co2_col distance sv
  let ncosts := normalize costs
  let ntimes := normalize times
  let nco2s := normalize co2s
  (List.range sv.length).map (fun i =>
    { vehicle := sv.getD i default
      avg_speed_kmh := speeds.getD i 0
      predicted_time_hours := times.getD i 0
      predicted_cost := costs.getD i 0
      predicted_co2_kg := co2s.getD i 0
      norm_cost := ncosts.getD i 0
      norm_time := ntimes.getD i 0
      norm_co2 := nco2s.getD i 0
      optimization_score :=
        wc * ncosts.getD i 0 + wt * ntimes.getD i 0 + wco * nco2s.getD i 0 })

/-! ### The sort of src/app.py line 242

`suitable_vehicles.sort_values('optimization_score')` uses the pandas
default `kind='quicksort'`; pandas argsorts the score column with numpy and
reorders the rows by the resulting index permutation.  numpy's quicksort is
an introsort (numpy `npysort/quicksort.c.src`, argsort variant
`aquicksort`): segments of at most 16 elements are insertion-sorted (which
is stable); longer segments are partitioned by a median-of-3 Hoare scheme
(which is not stable), with a heapsort fallback once 2·log2(num)+1
partitions have been performed.  The index array is modelled as a `List ℕ`,
the scores as a `List ℚ`; out-of-range reads default to 0 and are never
exercised by the algorithm.  Loop fuel parameters strictly dominate the
loop counts of the C code, so the fuel is never exhausted on the inputs the
program sorts. -/

/-- Value of the score column at an index. -/
def vget (v : List ℚ) (i : ℕ) : ℚ := v.getD i 0

/-- Entry of the index array at a position. -/
def idxAt (ts : List ℕ) (i : ℕ) : ℕ := ts.getD i 0

/-- Swap of two positions of the index array (`INTP_SWAP`). -/
def npSwap (ts : List ℕ) (i j : ℕ) : List ℕ :=
  (ts.set i (idxAt ts j)).set j (idxAt ts i)

/-- Upward scan `do ++pi; while (v[*pi] < vp)` of the partition loop. -/
def scanUp (v : List ℚ) (ts : List ℕ) (vp : ℚ) : ℕ → ℕ → ℕ
  | k, 0 => k
  | k, fuel+1 => if vget v (idxAt ts k) < vp then scanUp v ts vp (k+1) fuel else k

/-- Downward scan `do --pj; while (vp < v[*pj])` of the partition loop. -/
def scanDown (v : List ℚ) (ts : List ℕ) (vp : ℚ) : ℕ → ℕ → ℕ
  | k, 0 => k
  | k, fuel+1 => if vp < vget v (idxAt ts k) then scanDown v ts vp (k-1) fuel else k

/-- Hoare partition loop of `aquicksort`: returns the permuted index array
and the final value of `pi`. -/
def partLoop (v : List ℚ) (vp : ℚ) : List ℕ → ℕ → ℕ → ℕ → List ℕ × ℕ
  | ts, _, _, 0 => (ts, 0)
  | ts, i, j, fuel+1 =>
    let i2 := scanUp v ts vp (i+1) ts.length
    let j2 := scanDown v ts vp (j-1) ts.length
    if j2 ≤ i2 then (ts, i2)
    else partLoop v vp (npSwap ts i2 j2) i2 j2 fuel

/-- Comparison of two indices by their score values. -/
def leIdx (v : List ℚ) (i j : ℕ) : Prop := vget v i ≤ vget v j

instance decLeIdx (v : List ℚ) : DecidableRel (leIdx v) :=
  fun i j => inferInstanceAs (Decidable (vget v i ≤ vget v j))

/-- Insertion sort of the segment `[pl, pr]` of the index array by score
value, as run by `aquicksort` on segments of at most 16 elements.  The C
code inserts each element after the rightmost smaller-or-equal element of
the sorted prefix; `List.insertionSort` inserts each element before the
leftmost greater-or-equal element, which produces the identical (unique)
stable result. -/
def insertSeg (v : List ℚ) (ts : List ℕ) (pl pr : ℕ) : List ℕ :=
  ts.take pl ++ List.insertionSort (leIdx v) ((ts.drop pl).take (pr + 1 - pl))
    ++ ts.drop (pr + 1)

/-- Inner sift loop shared by both phases of numpy's `aheapsort`, on the
1-based segment array `a` (position `i` is `a.getD (i-1)`). -/
def heapSiftLoop (v : List ℚ) (tmp : ℕ) (n : ℕ) : List ℕ → ℕ → ℕ → ℕ → List ℕ
  | a, i, _, 0 => a.set (i-1) tmp
  | a, i, j, fuel+1 =>
    if j ≤ n then
      let j2 := if j < n ∧ vget v (idxAt a (j-1)) < vget v (idxAt a j) then j + 1 else j
      if vget v tmp < vget v (idxAt a (j2-1)) then
        heapSiftLoop v tmp n (a.set (i-1) (idxAt a (j2-1))) j2 (2*j2) fuel
      else a.set (i-1) tmp
    else a.set (i-1) tmp

/-- Heap construction phase of `aheapsort`: sift positions n/2 down to 1. -/
def heapPhase1 (v : List ℚ) (n : ℕ) : ℕ → List ℕ → List ℕ
  | 0, a => a
  | l+1, a => heapPhase1 v n l (heapSiftLoop v (idxAt a l) n a (l+1) (2*(l+1)) (n+2))

/-- Extraction phase of `aheapsort`: repeatedly swap the maximum to the end
of the shrinking heap and sift the displaced element down. -/
def heapPhase2 (v : List ℚ) : ℕ → List ℕ → List ℕ
  | 0, a => a
  | 1, a => a
  | n+2, a =>
    let tmp := idxAt a (n+1)
    let a1 := a.set (n+1) (idxAt a 0)
    let a2 := heapSiftLoop v tmp (n+1) a1 1 2 (n+3)
    heapPhase2 v (n+1) a2

/-- numpy `aheapsort` applied to the segment `[pl, pr]` of the index array;
only reached when the partition budget is exhausted. -/
def aheapsortSeg (v : List ℚ) (ts : List ℕ) (pl pr : ℕ) : List ℕ :=
  let seg := (ts.drop pl).take (pr + 1 - pl)
  let n := seg.length
  let seg2 := heapPhase2 v n (heapPhase1 v n (n / 2) seg)
  ts.take pl ++ seg2 ++ ts.drop (pr + 1)

/-- numpy `aquicksort` on the segment `[pl, pr]` of the index array,
threading the remaining partition budget; the structural fuel dominates the
recursion depth. -/
def aqsort (v : List ℚ) : ℕ → List ℕ → ℕ → ℕ → ℕ → List ℕ × ℕ
  | 0, ts, _, _, budget => (ts, budget)
  | fuel+1, ts, pl, pr, budget =>
    if 15 < pr - pl then
      if budget = 0 then (aheapsortSeg v ts pl pr, 0)
      else
        let pm := pl + (pr - pl) / 2
        let ts1 := if vget v (idxAt ts pm) < vget v (idxAt ts pl) then npSwap ts pm pl else ts
        let ts2 := if vget v (idxAt ts1 pr) < vget v (idxAt ts1 pm) then npSwap ts1 pr pm else ts1
        let ts3 := if vget v (idxAt ts2 pm) < vget v (idxAt ts2 pl) then npSwap ts2 pm pl else ts2
        let vp := vget v (idxAt ts3 pm)
        let ts4 := npSwap ts3 pm (pr - 1)
        let pres := partLoop v vp ts4 pl (pr - 1) ts4.length
        let ts6 := npSwap pres.1 pres.2 (pr - 1)
        if pres.2 - pl < pr - pres.2 then
          let res1 := aqsort v fuel ts6 pl (pres.2 - 1) (budget - 1)
          aqsort v fuel res1.1 (pres.2 + 1) pr res1.2
        else
          let res1 := aqsort v fuel ts6 (pres.2 + 1) pr (budget - 1)
          aqsort v fuel res1.1 pl (pres.2 - 1) res1.2
    else (insertSeg v ts pl pr, budget)

/-- numpy `argsort(kind='quicksort')` of a score column, as called by
pandas `nargsort` for `sort_values` (the scores contain no NaN, so the
pandas NaN relocation is the identity). -/
def np_argsort (v : List ℚ) : List ℕ :=
  (aqsort v v.length (List.range v.length) 0 (v.length - 1) (Nat.log2 v.length * 2 + 1)).1

/-- `sort_values('optimization_score')` of src/app.py line 242: the rows
reordered by the numpy argsort of the score column. -/
def sort_values (rows : List ScoredVehicle) : List ScoredVehicle :=
  (np_argsort (rows.map (fun r => r.optimization_score))).filterMap (fun i => rows.get? i)

/-- Failure signal of the recommendation logic (src/app.py lines 189-190). -/
inductive DispatchError where
  | noSuitableVehicle
deriving DecidableEq

/-- Recommendation pipeline of src/app.py lines 181-243 for one optimize
request: filter the fleet; report `noSuitableVehicle` when no candidate is
eligible (no prediction or scoring is performed); otherwise predict, score
and rank. -/
def optimize_dispatch (o : OrderDetails) (fleet : List Vehicle)
    (wc wt wco : ℚ) : Except DispatchError (List ScoredVehicle) :=
  let sv := suitable_vehicles o fleet
  if sv.isEmpty then Except.error DispatchError.noSuitableVehicle
  else Except.ok (sort_values
    (score_rows wc wt wco o.distance_km o.traffic_delays_hours o.toll_charges sv))

/-! ### Float-division model for the zero-divisor analysis (claim C6)

The main pipeline works in exact rationals; the following refines the one
division of src/app.py line 216 whose divisor can be zero, tracking IEEE
non-finiteness. -/

/-- IEEE float division as performed by numpy at src/app.py line 216: a zero
divisor silently yields a non-finite value (±infinity, or NaN for 0/0),
modelled as `none`; a nonzero divisor gives the exact finite quotient. -/
def floatDiv (a b : ℚ) : Option ℚ := if b = 0 then none else some (a / b)

/-- Cost prediction of src/app.py lines 216-219 for one vehicle, with the
fuel division tracked for finiteness: a non-finite fuel term propagates
into a non-finite predicted cost (the speed divisor is one of 45, 50, 60
and never zero). -/
def predicted_cost_float (distance traffic tolls : ℚ) (v : Vehicle) : Option ℚ :=
  (floatDiv distance v.fuel_efficiency_km_per_l).map (fun fn =>
    fn * ASSUMED_FUEL_PRICE_PER_LITER +
      (distance / get_speed v.vehicle_type + traffic) * ASSUMED_LABOR_COST_PER_HOUR
      + tolls)

/-! ### Concrete records used by the scenario conjuncts and witnesses -/

/-- Van of the C1 scenario: fuel efficiency 10 km/l, 0.2 kg CO2 per km. -/
def scenario_van : Vehicle := ⟨"V1", "van", 10, 1/5, 100⟩

/-- Van whose `fuel_efficiency_km_per_l` cell is 0 (all columns present). -/
def zero_eff_vehicle : Vehicle := ⟨"V9", "van", 0, 1/5, 100⟩

/-- Non-perishable order with the C1 route attributes. -/
def clothing_refr_order : OrderDetails :=
  ⟨"O1", "Clothing", "Refrigerated", "A", "B", 100, 1, 5⟩

/-- Same order with a different `special_handling` value. -/
def clothing_std_order : OrderDetails :=
  ⟨"O1", "Clothing", "Standard", "A", "B", 100, 1, 5⟩

/-- Perishable order (product category Food & Beverage). -/
def fb_order : OrderDetails :=
  ⟨"O2", "Food & Beverage", "Refrigerated", "A", "B", 100, 1, 5⟩

/-- Fleet of 17 vans with identical attributes and distinct ids: every
candidate receives identical predicted metrics, hence an identical
optimization score. -/
def tie_fleet : List Vehicle :=
  (List.range 17).map (fun i => ⟨toString i, "van", 10, 1/5, 100⟩)

/-- Two scored rows with equal scores, used by the C4 witness. -/
def tie_rows : List ScoredVehicle :=
  [⟨⟨"a", "van", 10, 1/5, 100⟩, 60, 1, 2, 3, 0, 0, 0, 0⟩,
   ⟨⟨"b", "van", 10, 1/5, 100⟩, 60, 1, 2, 3, 0, 0, 0, 0⟩]

/-! ### Total preorder on indices used by the sort analysis -/

instance (v : List ℚ) : IsTotal ℕ (leIdx v) :=
  ⟨fun a b => le_total (vget v a) (vget v b)⟩

instance (v : List ℚ) : IsTrans ℕ (leIdx v) :=
  ⟨fun _ _ _ hab hbc => le_trans hab hbc⟩

/-! ### Theorems about the embedded program -/

theorem lowerChar_idem (c : ℕ) : lowerChar (lowerChar c) = lowerChar c := by
  unfold lowerChar
  split_ifs with h1 h2 <;> first | rfl | omega

theorem fixedChar_underscore : fixedChar underscore := by
  constructor <;> simp [lowerChar, replaceChar, isReplaced, underscore]

theorem fixedChar_after_replace (c : ℕ) : fixedChar (replaceChar (lowerChar c)) := by
  by_cases h : isReplaced (lowerChar c) = true
  · rw [replaceChar, if_pos h]
    exact fixedChar_underscore
  · rw [replaceChar, if_neg h]
    refine ⟨lowerChar_idem c, ?_⟩
    rw [replaceChar, if_neg h]

theorem map_eq_self_of_fixed {f : ℕ → ℕ} :
    ∀ {l : List ℕ}, (∀ c ∈ l, f c = c) → l.map f = l
  | [], _ => rfl
  | a :: t, h => by
    rw [List.map_cons, h a (List.mem_cons_self a t),
      map_eq_self_of_fixed (fun c hc => h c (List.mem_cons_of_mem a hc))]

theorem collapse_head? :
    ∀ l : List ℕ, (collapseUnderscores l).head? = l.head?
  | [] => rfl
  | [c] => rfl
  | a :: b :: rest => by
    rw [collapseUnderscores]
    split_ifs with h
    · rw [collapse_head? (b :: rest)]
      simp [h.1, h.2]
    · rfl

theorem collapse_subset :
    ∀ {l : List ℕ} {c : ℕ}, c ∈ collapseUnderscores l → c ∈ l
  | [], _, h => h
  | [_], _, h => h
  | a :: b :: rest, c, h => by
    rw [collapseUnderscores] at h
    split_ifs at h with hab
    · exact List.mem_cons_of_mem a (collapse_subset h)
    · rcases List.mem_cons.mp h with h1 | h2
      · exact h1 ▸ List.mem_cons_self a (b :: rest)
      · exact List.mem_cons_of_mem a (collapse_subset h2)

theorem chain'_collapse :
    ∀ l : List ℕ, List.Chain' notAdjUnd (collapseUnderscores l)
  | [] => List.chain'_nil
  | [c] => List.chain'_singleton c
  | a :: b :: rest => by
    rw [collapseUnderscores]
    split_ifs with h
    · exact chain'_collapse (b :: rest)
    · refine List.chain'_cons'.mpr ⟨?_, chain'_collapse (b :: rest)⟩
      intro y hy
      rw [collapse_head? (b :: rest)] at hy
      simp only [List.head?_cons, Option.mem_def, Option.some.injEq] at hy
      exact hy ▸ h

theorem collapse_eq_self :
    ∀ {l : List ℕ}, List.Chain' notAdjUnd l → collapseUnderscores l = l
  | [], _ => rfl
  | [_], _ => rfl
  | a :: b :: rest, h => by
    rw [collapseUnderscores, if_neg (List.chain'_cons.mp h).1,
      collapse_eq_self (List.chain'_cons.mp h).2]

theorem strip_subset {l : List ℕ} {c : ℕ} (h : c ∈ stripUnderscores l) : c ∈ l := by
  have h1 : c ∈ l.dropWhile isUnd :=
    (List.rdropWhile_prefix isUnd (l.dropWhile isUnd)).subset h
  exact (List.dropWhile_suffix isUnd).subset h1

theorem chain'_strip {l : List ℕ} (h : List.Chain' notAdjUnd l) :
    List.Chain' notAdjUnd (stripUnderscores l) := by
  obtain ⟨s, hs⟩ := List.dropWhile_suffix (l := l) isUnd
  have hdrop : List.Chain' notAdjUnd (s ++ l.dropWhile isUnd) := by
    rw [hs]; exact h
  obtain ⟨t, ht⟩ := List.rdropWhile_prefix isUnd (l.dropWhile isUnd)
  have hstrip : List.Chain' notAdjUnd (stripUnderscores l ++ t) := by
    unfold stripUnderscores
    rw [ht]
    exact hdrop.right_of_append
  exact hstrip.left_of_append

theorem strip_strip (l : List ℕ) :
    stripUnderscores (stripUnderscores l) = stripUnderscores l := by
  have hdw : (stripUnderscores l).dropWhile isUnd = stripUnderscores l := by
    rw [List.dropWhile_eq_self_iff]
    intro hl
    have hpre := List.rdropWhile_prefix isUnd (l.dropWhile isUnd)
    have hlen : 0 < (l.dropWhile isUnd).length := by
      have hle := hpre.length_le
      have hl2 : 0 < (stripUnderscores l).length := hl
      unfold stripUnderscores at hl2
      omega
    have hhead : ¬ (isUnd ((l.dropWhile isUnd).get ⟨0, hlen⟩) = true) := by
      have hidem := List.dropWhile_idempotent (l := l) (p := isUnd)
      exact (List.dropWhile_eq_self_iff.mp hidem) hlen
    intro hcontra
    apply hhead
    have hget : (stripUnderscores l).get ⟨0, hl⟩ = (l.dropWhile isUnd).get ⟨0, hlen⟩ := by
      simp only [List.get_eq_getElem]
      exact hpre.getElem hl
    rw [← hget]
    exact hcontra
  unfold stripUnderscores
  unfold stripUnderscores at hdw
  rw [hdw]
  exact List.rdropWhile_idempotent isUnd _

theorem fixed_clean {name : List ℕ} {c : ℕ} (h : c ∈ clean_col_names name) :
    fixedChar c := by
  unfold clean_col_names at h
  have h1 : c ∈ collapseUnderscores ((name.map lowerChar).map replaceChar) :=
    strip_subset h
  have h2 : c ∈ (name.map lowerChar).map replaceChar := collapse_subset h1
  rw [List.map_map] at h2
  obtain ⟨d, _, rfl⟩ := List.mem_map.mp h2
  exact fixedChar_after_replace d

theorem chain'_clean (name : List ℕ) :
    List.Chain' notAdjUnd (clean_col_names name) :=
  chain'_strip (chain'_collapse _)

theorem clean_col_names_idem (name : List ℕ) :
    clean_col_names (clean_col_names name) = clean_col_names name := by
  have hlower : (clean_col_names name).map lowerChar = clean_col_names name :=
    map_eq_self_of_fixed (fun c hc => (fixed_clean hc).1)
  have hrepl : (clean_col_names name).map replaceChar = clean_col_names name :=
    map_eq_self_of_fixed (fun c hc => (fixed_clean hc).2)
  conv_lhs => rw [clean_col_names, hlower, hrepl, collapse_eq_self (chain'_clean name)]
  exact strip_strip _

/-- C9: the Column Normalizer is idempotent: for every header and every header
set, applying the normalization (lowercase; replace whitespace, parentheses
and slashes with underscores; collapse repeated underscores; strip leading
and trailing underscores) twice yields the same result as applying it once. -/
theorem claim_C9 :
    (∀ name : List ℕ, clean_col_names (clean_col_names name) = clean_col_names name) ∧
      ∀ headers : List (List ℕ),
        (headers.map clean_col_names).map clean_col_names = headers.map clean_col_names := by
  refine ⟨clean_col_names_idem, fun headers => ?_⟩
  rw [List.map_map]
  exact List.map_congr_left (fun name _ => clean_col_names_idem name)

theorem length_leftJoin {α β κ : Type} [DecidableEq κ] (ka : α → κ) (kb : β → κ)
    (left : List α) (right : List β)
    (h : ∀ a ∈ left, (right.filter (fun b => decide (kb b = ka a))).length ≤ 1) :
    (leftJoin ka kb left right).length = left.length := by
  induction left with
  | nil => rfl
  | cons a l ih =>
    rw [leftJoin, List.flatMap_cons, List.length_append]
    have hrec : (leftJoin ka kb l right).length = l.length :=
      ih (fun x hx => h x (List.mem_cons_of_mem a hx))
    rw [leftJoin] at hrec
    have ha := h a (List.mem_cons_self a l)
    cases hf : right.filter (fun b => decide (kb b = ka a)) with
    | nil =>
      rw [hrec]
      show ([(a, (none : Option β))]).length + l.length = (a :: l).length
      simp only [List.length_singleton, List.length_cons, List.length_nil]
      omega
    | cons m ms =>
      rw [hf] at ha
      simp only [List.length_cons] at ha
      have hms : ms = [] := List.length_eq_zero.mp (by omega)
      subst hms
      rw [hrec]
      show (List.map (fun m => (a, some m)) [m]).length + l.length = (a :: l).length
      simp only [List.length_map, List.length_singleton, List.length_cons, List.length_nil]
      omega

theorem leftJoin_none_mem {α β κ : Type} [DecidableEq κ] (ka : α → κ) (kb : β → κ)
    (left : List α) (right : List β) {a : α} (ha : a ∈ left)
    (hmiss : right.filter (fun b => decide (kb b = ka a)) = []) :
    (a, (none : Option β)) ∈ leftJoin ka kb left right := by
  rw [leftJoin, List.mem_flatMap]
  exact ⟨a, ha, by rw [hmiss]; exact List.mem_singleton_self _⟩

/-- C3: for input tables where each secondary table (performance, routes,
costs) has at most one row per key, the merged master table has exactly as
many rows as the orders table; and an order whose key is absent from a
secondary table still yields a merged row, with the secondary fields
missing. -/
theorem claim_C3 {O P R C κ : Type} [DecidableEq κ] (ko : O → κ) (kp : P → κ)
    (kr : R → κ) (kc : C → κ) (orders : List O) (performance : List P)
    (routes : List R) (costs : List C)
    (hp : ∀ k, (performance.filter (fun b => decide (kp b = k))).length ≤ 1)
    (hr : ∀ k, (routes.filter (fun b => decide (kr b = k))).length ≤ 1)
    (hc : ∀ k, (costs.filter (fun b => decide (kc b = k))).length ≤ 1) :
    (master_df ko kp kr kc orders performance routes costs).length = orders.length ∧
      ∀ a ∈ orders, performance.filter (fun b => decide (kp b = ko a)) = [] →
        (a, (none : Option P)) ∈ leftJoin ko kp orders performance := by
  constructor
  · unfold master_df
    rw [length_leftJoin _ _ _ _ (fun a _ => hc _),
      length_leftJoin _ _ _ _ (fun a _ => hr _),
      length_leftJoin _ _ _ _ (fun a _ => hp _)]
  · exact fun a ha hm => leftJoin_none_mem ko kp orders performance ha hm

/-- Witness for C3 at a concrete input: two orders, a single-row performance
table matching only order 1, empty routes, a one-row costs table; the merged
table has exactly two rows and order 2 keeps a row with missing performance
fields. -/
theorem claim_C3_witness :
    (master_df Prod.fst Prod.fst Prod.fst Prod.fst
        [((1 : ℕ), (10 : ℕ)), (2, 20)] [((1 : ℕ), (100 : ℕ))]
        ([] : List (ℕ × ℕ)) [((2 : ℕ), (200 : ℕ))]).length = 2 ∧
      (((2 : ℕ), (20 : ℕ)), (none : Option (ℕ × ℕ))) ∈
        leftJoin Prod.fst Prod.fst [((1 : ℕ), (10 : ℕ)), (2, 20)]
          [((1 : ℕ), (100 : ℕ))] := by
  have h := claim_C3 Prod.fst Prod.fst Prod.fst Prod.fst
    [((1 : ℕ), (10 : ℕ)), (2, 20)] [((1 : ℕ), (100 : ℕ))]
    ([] : List (ℕ × ℕ)) [((2 : ℕ), (200 : ℕ))]
    (fun k => le_trans (List.length_filter_le _ _) (by decide))
    (fun k => le_trans (List.length_filter_le _ _) (by decide))
    (fun k => le_trans (List.length_filter_le _ _) (by decide))
  exact ⟨h.1, h.2 (2, 20) (by decide) (by decide)⟩

theorem lookupList_setList_same (cols : List (String × List (Option ℚ)))
    (n : String) (v : List (Option ℚ)) :
    lookupColList (setColList cols n v) n = some v := by
  induction cols with
  | nil => simp [setColList, lookupColList]
  | cons c cs ih =>
    rw [setColList]
    by_cases hc : c.1 = n
    · rw [if_pos hc, lookupColList, if_pos rfl]
    · rw [if_neg hc, lookupColList, if_neg hc, ih]

theorem lookupList_replaceCols_ne (cols : List (String × List (Option ℚ)))
    {n m : String} (v : List (Option ℚ)) (hnm : m ≠ n) :
    lookupColList (replaceCols n v cols) m = lookupColList cols m := by
  have hnm2 : ¬(n = m) := fun h => hnm h.symm
  induction cols with
  | nil => rfl
  | cons c cs ih =>
    rw [replaceCols]
    by_cases hc : c.1 = n
    · have hcm : ¬(c.1 = m) := fun h => hnm2 (hc ▸ h)
      rw [if_pos hc, lookupColList, lookupColList, if_neg hcm]
      have : ((n, v) : String × List (Option ℚ)).1 = n := rfl
      rw [if_neg (this ▸ hnm2)]
      exact ih
    · rw [if_neg hc, lookupColList, lookupColList]
      by_cases hcm : c.1 = m
      · rw [if_pos hcm, if_pos hcm]
      · rw [if_neg hcm, if_neg hcm]
        exact ih

theorem lookupList_setList_ne (cols : List (String × List (Option ℚ)))
    {n m : String} (v : List (Option ℚ)) (hnm : m ≠ n) :
    lookupColList (setColList cols n v) m = lookupColList cols m := by
  have hnm2 : ¬(n = m) := fun h => hnm h.symm
  induction cols with
  | nil => simp [setColList, lookupColList, hnm2]
  | cons c cs ih =>
    rw [setColList]
    by_cases hc : c.1 = n
    · have hcm : ¬(c.1 = m) := fun h => hnm2 (hc ▸ h)
      rw [lookupColList, if_pos hc, lookupColList, if_neg hcm]
      have : ((n, v) : String × List (Option ℚ)).1 = n := rfl
      rw [if_neg (this ▸ hnm2)]
      exact lookupList_replaceCols_ne cs v hnm
    · rw [if_neg hc, lookupColList, lookupColList]
      by_cases hcm : c.1 = m
      · rw [if_pos hcm, if_pos hcm]
      · rw [if_neg hcm, if_neg hcm]
        exact ih

theorem lookup_setCol_same (df : DataFrame) (n : String) (v : List (Option ℚ)) :
    lookupCol (setCol df n v) n = some v :=
  lookupList_setList_same df.cols n v

theorem lookup_setCol_ne (df : DataFrame) {n m : String} (v : List (Option ℚ))
    (hnm : m ≠ n) : lookupCol (setCol df n v) m = lookupCol df m :=
  lookupList_setList_ne df.cols v hnm

theorem nrows_imputeStep (df : DataFrame) (col : String) :
    (imputeStep df col).nrows = df.nrows := by
  rw [imputeStep]
  cases lookupCol df col <;> rfl

theorem lookup_imputeStep_ne (df : DataFrame) {col other : String}
    (h : other ≠ col) :
    lookupCol (imputeStep df col) other = lookupCol df other := by
  rw [imputeStep]
  cases lookupCol df col <;> exact lookup_setCol_ne df _ h

theorem lookup_imputeStep_same (df : DataFrame) (col : String) :
    lookupCol (imputeStep df col) col =
      match lookupCol df col with
      | some c => some (fillnaCol c (seriesMedian c))
      | none => some (List.replicate df.nrows (some 0)) := by
  rw [imputeStep]
  cases lookupCol df col <;> exact lookup_setCol_same df col _

theorem lookup_foldl_not_mem (names : List String) (df : DataFrame)
    {col : String} (h : col ∉ names) :
    lookupCol (names.foldl imputeStep df) col = lookupCol df col := by
  induction names generalizing df with
  | nil => rfl
  | cons n rest ih =>
    rw [List.foldl_cons, ih (imputeStep df n) (fun hr => h (List.mem_cons_of_mem n hr))]
    exact lookup_imputeStep_ne df (fun he => h (he ▸ List.mem_cons_self n rest))

theorem lookup_foldl_mem (names : List String) (df : DataFrame) {col : String}
    (hnodup : names.Nodup) (hmem : col ∈ names) :
    lookupCol (names.foldl imputeStep df) col =
      match lookupCol df col with
      | some c => some (fillnaCol c (seriesMedian c))
      | none => some (List.replicate df.nrows (some 0)) := by
  induction names generalizing df with
  | nil => cases hmem
  | cons n rest ih =>
    rw [List.foldl_cons]
    by_cases hcn : col = n
    · subst hcn
      have hnot : col ∉ rest := (List.nodup_cons.mp hnodup).1
      rw [lookup_foldl_not_mem rest _ hnot]
      exact lookup_imputeStep_same df col
    · have hmem2 : col ∈ rest := by
        rcases List.mem_cons.mp hmem with h | h
        · exact absurd h hcn
        · exact h
      rw [ih (imputeStep df n) (List.nodup_cons.mp hnodup).2 hmem2,
        lookup_imputeStep_ne df hcn, nrows_imputeStep]

theorem seriesMedian_isSome {col : List (Option ℚ)}
    (h : col.filterMap id ≠ []) : ∃ m, seriesMedian col = some m := by
  rw [seriesMedian]
  have hlen : ¬((List.insertionSort (fun a b => a ≤ b) (col.filterMap id)).length = 0) := by
    rw [List.length_insertionSort]
    exact fun hc => h (List.length_eq_zero.mp hc)
  rw [if_neg hlen]
  by_cases hodd : (List.insertionSort (fun a b => a ≤ b) (col.filterMap id)).length % 2 = 1
  · rw [if_pos hodd]; exact ⟨_, rfl⟩
  · rw [if_neg hodd]; exact ⟨_, rfl⟩

theorem fillna_no_missing (c : List (Option ℚ)) (m : ℚ) :
    ∀ x ∈ fillnaCol c (some m), x ≠ none := by
  intro x hx
  rw [fillnaCol] at hx
  obtain ⟨y, _, rfl⟩ := List.mem_map.mp hx
  exact Option.some_ne_none _

theorem fillna_imputed_eq_median (c : List (Option ℚ)) (m : ℚ) (i : ℕ)
    (hi : c.get? i = some none) :
    (fillnaCol c (some m)).get? i = some (some m) := by
  rw [fillnaCol, List.get?_eq_getElem?, List.getElem?_map,
    ← List.get?_eq_getElem?, hi]
  rfl

/-- C2 as stated is false on the code: a required column that exists but is
entirely missing has NaN median, and `fillna(NaN)` leaves every cell
missing.  Concretely, for a one-row merged table whose `distance_km` column
is `[none]`, the column still contains a missing value after imputation. -/
theorem claim_C2_counterexample :
    "distance_km" ∈ num_cols_to_fill ∧
      lookupCol ⟨1, [("distance_km", [none])]⟩ "distance_km" = some [none] ∧
      ∃ c, lookupCol (impute_missing ⟨1, [("distance_km", [none])]⟩) "distance_km"
          = some c ∧ none ∈ c := by
  refine ⟨by decide, by with_unfolding_all rfl, [none], by with_unfolding_all rfl, by simp⟩

/-- C2 (amended): for every column in the fixed imputation list: if the
column exists in the merged table and has at least one non-missing value,
after imputation it contains no missing values and every previously missing
cell equals the pre-imputation median of that column; if the column exists
but is entirely missing, it is left unchanged (its median is NaN and
`fillna(NaN)` is the identity); if the column is absent, it is synthesized
with value 0.0 in every row. -/
theorem claim_C2 (df : DataFrame) (col : String) (hcol : col ∈ num_cols_to_fill) :
    (∀ c, lookupCol df col = some c → c.filterMap id ≠ [] →
      ∃ m, seriesMedian c = some m ∧
        lookupCol (impute_missing df) col = some (fillnaCol c (some m)) ∧
        (∀ x ∈ fillnaCol c (some m), x ≠ none) ∧
        (∀ i, c.get? i = some none → (fillnaCol c (some m)).get? i = some (some m))) ∧
      (∀ c, lookupCol df col = some c → c.filterMap id = [] →
        lookupCol (impute_missing df) col = some c) ∧
      (lookupCol df col = none →
        lookupCol (impute_missing df) col = some (List.replicate df.nrows (some 0))) := by
  have hnodup : num_cols_to_fill.Nodup := by decide
  have hfold := lookup_foldl_mem num_cols_to_fill df hnodup hcol
  refine ⟨?_, ?_, ?_⟩
  · intro c hc hne
    obtain ⟨m, hm⟩ := seriesMedian_isSome hne
    refine ⟨m, hm, ?_, fillna_no_missing c m, fun i hi => fillna_imputed_eq_median c m i hi⟩
    rw [impute_missing, hfold, hc]
    show some (fillnaCol c (seriesMedian c)) = some (fillnaCol c (some m))
    rw [hm]
  · intro c hc hall
    have hmed : seriesMedian c = none := by
      rw [seriesMedian]
      have hz : (List.insertionSort (fun a b => a ≤ b) (c.filterMap id)).length = 0 := by
        rw [List.length_insertionSort, hall]
        rfl
      rw [if_pos hz]
    rw [impute_missing, hfold, hc]
    show some (fillnaCol c (seriesMedian c)) = some c
    rw [hmed]
    rfl
  · intro hc
    rw [impute_missing, hfold, hc]

/-- Witness for the amended C2 at concrete inputs: a two-row table whose
`distance_km` column is `[some 1, none]` gets its missing cell replaced by
the median 1, and the absent `toll_charges` column is synthesized as two
zero cells. -/
theorem claim_C2_witness :
    (∃ m, seriesMedian [some (1 : ℚ), none] = some m ∧
      lookupCol (impute_missing ⟨2, [("distance_km", [some 1, none])]⟩) "distance_km"
          = some (fillnaCol [some 1, none] (some m)) ∧
      (∀ x ∈ fillnaCol [some (1 : ℚ), none] (some m), x ≠ none) ∧
      (∀ i, ([some (1 : ℚ), none].get? i = some none) →
        (fillnaCol [some 1, none] (some m)).get? i = some (some m))) ∧
    lookupCol (impute_missing ⟨2, [("distance_km", [some 1, none])]⟩) "toll_charges"
        = some (List.replicate 2 (some 0)) := by
  constructor
  · exact (claim_C2 ⟨2, [("distance_km", [some 1, none])]⟩ "distance_km"
      (by decide)).1 [some 1, none] (by with_unfolding_all rfl) (by decide)
  · exact (claim_C2 ⟨2, [("distance_km", [some 1, none])]⟩ "toll_charges"
      (by decide)).2.2 (by with_unfolding_all rfl)

/-- C7: date/time parsing never raises: an unparseable or missing value
becomes NaT; when both timestamps parse the derived delay is
(actual − promised) in hours; when either one is NaT the derived delay is
exactly 0 (a number, not missing); and every row of the derived column is
the row-wise delay of the paired cells. -/
theorem claim_C7 :
    (∀ t : ℤ, to_datetime_coerce (RawCell.parses t) = some t) ∧
      (to_datetime_coerce RawCell.unparseable = none ∧
        to_datetime_coerce RawCell.missing = none) ∧
      (∀ p a : ℤ, delayRow (RawCell.parses p) (RawCell.parses a) =
        (((a : ℚ) - (p : ℚ)) / 3600)) ∧
      (∀ p a : RawCell, (to_datetime_coerce p = none ∨ to_datetime_coerce a = none) →
        delayRow p a = 0) ∧
      (∀ promised actual : List RawCell, ∀ i : ℕ,
        i < promised.length → i < actual.length →
        (delivery_delay_hours promised actual).get? i =
          some (delayRow (promised.getD i RawCell.missing)
            (actual.getD i RawCell.missing))) := by
  refine ⟨fun t => rfl, ⟨rfl, rfl⟩, ?_, ?_, ?_⟩
  · intro p a
    show ((((a - p : ℤ) : ℚ)) / 3600 : ℚ) = ((a : ℚ) - (p : ℚ)) / 3600
    push_cast
    ring
  · intro p a h
    cases p <;> cases a <;> first
      | rfl
      | (exfalso
         rcases h with h | h <;> exact Option.some_ne_none _ h)
  · intro promised actual i hp ha
    rw [delivery_delay_hours, List.get?_eq_getElem?, List.getElem?_zipWith,
      List.getElem?_eq_getElem hp, List.getElem?_eq_getElem ha]
    rw [List.getD_eq_getElem promised RawCell.missing hp,
      List.getD_eq_getElem actual RawCell.missing ha]

/-- Witness for C7 at concrete inputs: a two-row pair of columns in which the
first row has both timestamps (7200 s and 3600 s earlier) and the second row
has an unparseable actual value; the derived delays are 1 hour and 0. -/
theorem claim_C7_witness :
    delayRow (RawCell.parses 3600) (RawCell.parses 7200) = 1 ∧
      delayRow (RawCell.parses 3600) RawCell.unparseable = 0 ∧
      (delivery_delay_hours [RawCell.parses 3600, RawCell.parses 3600]
        [RawCell.parses 7200, RawCell.unparseable]).get? 1 =
        some (delayRow ([RawCell.parses 3600, RawCell.parses 3600].getD 1 RawCell.missing)
          (([RawCell.parses 7200, RawCell.unparseable].getD 1 RawCell.missing))) := by
  obtain ⟨h1, h2, h3, h4, h5⟩ := claim_C7
  refine ⟨?_, ?_, ?_⟩
  · rw [h3 3600 7200]
    norm_num
  · exact h4 (RawCell.parses 3600) RawCell.unparseable (Or.inr rfl)
  · exact h5 [RawCell.parses 3600, RawCell.parses 3600]
      [RawCell.parses 7200, RawCell.unparseable] 1 (by decide) (by decide)

/-! ### Claims C10, C1, C5, C6, C8 -/

/-- C10: eligibility depends only on the order's product category being in
the fixed perishable set: perishable orders get exactly the refrigerated
units, all other orders get exactly the non-refrigerated vehicles, and two
orders with the same category (in particular, differing only in
`special_handling`) get the same candidate set. -/
theorem claim_C10 :
    (∀ c : String, is_perishable c = true ↔ (c = "Food & Beverage" ∨ c = "Healthcare")) ∧
      (∀ (o : OrderDetails) (fleet : List Vehicle),
        (is_perishable o.product_category = true →
          suitable_vehicles o fleet =
            fleet.filter (fun v => v.vehicle_type == "refrigerated unit")) ∧
        (is_perishable o.product_category = false →
          suitable_vehicles o fleet =
            fleet.filter (fun v => !(v.vehicle_type == "refrigerated unit")))) ∧
      (∀ (o o2 : OrderDetails) (fleet : List Vehicle),
        o.product_category = o2.product_category →
        suitable_vehicles o fleet = suitable_vehicles o2 fleet) := by
  refine ⟨?_, ?_, ?_⟩
  · intro c
    simp [is_perishable]
  · intro o fleet
    constructor
    · intro h
      rw [suitable_vehicles, if_pos h]
    · intro h
      rw [suitable_vehicles, if_neg (by rw [h]; exact Bool.false_ne_true)]
  · intro o o2 fleet h
    rw [suitable_vehicles, suitable_vehicles, h]

/-- Witness for C10 at concrete inputs: Food & Beverage is perishable, and
two Clothing orders differing only in `special_handling` select the same
candidates from a two-vehicle fleet. -/
theorem claim_C10_witness :
    (is_perishable "Food & Beverage" = true ↔
      ("Food & Beverage" = "Food & Beverage" ∨ "Food & Beverage" = "Healthcare")) ∧
      suitable_vehicles clothing_refr_order [scenario_van, zero_eff_vehicle] =
        suitable_vehicles clothing_std_order [scenario_van, zero_eff_vehicle] :=
  ⟨claim_C10.1 "Food & Beverage",
    claim_C10.2.2 clothing_refr_order clothing_std_order [scenario_van, zero_eff_vehicle] rfl⟩

/-- C1: the Predictor computes `avg_speed_kmh` by the fixed lookup (express
bike and van give 60, truck 45, everything else 50) and the per-vehicle
formulas for predicted time, cost and CO2; on the concrete scenario
(distance 100 km, traffic 1 h, tolls 5, a van with 10 km/l and 0.2 kg/km)
it yields time 8/3 h, cost 220/3 and 20 kg of CO2. -/
theorem claim_C1 :
    (∀ s : String, (s = "express bike" ∨ s = "van") → get_speed s = 60) ∧
      get_speed "truck" = 45 ∧
      (∀ s : String, s ≠ "express bike" → s ≠ "van" → s ≠ "truck" → get_speed s = 50) ∧
      (∀ (distance traffic tolls : ℚ) (sv : List Vehicle) (i : ℕ) (v : Vehicle),
        sv.get? i = some v →
        (avg_speed_col sv).get? i = some (get_speed v.vehicle_type) ∧
        (predicted_time_col distance traffic sv).get? i =
          some (distance / get_speed v.vehicle_type + traffic) ∧
        (predicted_cost_col distance traffic tolls sv).get? i =
          some ((distance / v.fuel_efficiency_km_per_l) * ASSUMED_FUEL_PRICE_PER_LITER +
            (distance / get_speed v.vehicle_type + traffic) * ASSUMED_LABOR_COST_PER_HOUR
            + tolls) ∧
        (predicted_co2_col distance sv).get? i =
          some (distance * v.co2_emissions_kg_per_km)) ∧
      (predicted_time_col 100 1 [scenario_van] = [8/3] ∧
        predicted_cost_col 100 1 5 [scenario_van] = [220/3] ∧
        predicted_co2_col 100 [scenario_van] = [20]) := by
  refine ⟨?_, rfl, ?_, ?_, ?_, ?_, ?_⟩
  · intro s hs
    rw [get_speed, if_pos hs]
  · intro s h1 h2 h3
    rw [get_speed, if_neg (by rintro (h | h) <;> [exact h1 h; exact h2 h]), if_neg h3]
  · intro distance traffic tolls sv i v hv
    rw [List.get?_eq_getElem?] at hv
    have ha : (avg_speed_col sv)[i]? = some (get_speed v.vehicle_type) := by
      rw [avg_speed_col, List.getElem?_map, hv]
      rfl
    have ht : (predicted_time_col distance traffic sv)[i]? =
        some (distance / get_speed v.vehicle_type + traffic) := by
      rw [predicted_time_col, List.getElem?_map, ha]
      rfl
    have hf : (fuel_cost_col distance sv)[i]? =
        some ((distance / v.fuel_efficiency_km_per_l) * ASSUMED_FUEL_PRICE_PER_LITER) := by
      rw [fuel_cost_col, List.getElem?_map, fuel_needed_col, List.getElem?_map, hv]
      rfl
    have hl : (labor_cost_col distance traffic sv)[i]? =
        some ((distance / get_speed v.vehicle_type + traffic) *
          ASSUMED_LABOR_COST_PER_HOUR) := by
      rw [labor_cost_col, List.getElem?_map, ht]
      rfl
    refine ⟨?_, ?_, ?_, ?_⟩
    · rw [List.get?_eq_getElem?]
      exact ha
    · rw [List.get?_eq_getElem?]
      exact ht
    · rw [List.get?_eq_getElem?, predicted_cost_col, List.getElem?_zipWith, hf, hl]
    · rw [List.get?_eq_getElem?, predicted_co2_col, List.getElem?_map, hv]
      rfl
  · with_unfolding_all rfl
  · with_unfolding_all rfl
  · with_unfolding_all rfl

/-- Witness for C1 at a concrete input: the per-row formulas evaluated on
the scenario van at row 0. -/
theorem claim_C1_witness :
    (avg_speed_col [scenario_van]).get? 0 = some (get_speed scenario_van.vehicle_type) ∧
      (predicted_time_col 100 1 [scenario_van]).get? 0 =
        some (100 / get_speed scenario_van.vehicle_type + 1) ∧
      (predicted_cost_col 100 1 5 [scenario_van]).get? 0 =
        some ((100 / scenario_van.fuel_efficiency_km_per_l) * ASSUMED_FUEL_PRICE_PER_LITER +
          (100 / get_speed scenario_van.vehicle_type + 1) * ASSUMED_LABOR_COST_PER_HOUR
          + 5) ∧
      (predicted_co2_col 100 [scenario_van]).get? 0 =
        some (100 * scenario_van.co2_emissions_kg_per_km) :=
  claim_C1.2.2.2.1 100 1 5 [scenario_van] 0 scenario_van rfl

theorem foldl_min_mem (l : List ℚ) (a : ℚ) :
    l.foldl min a = a ∨ l.foldl min a ∈ l := by
  induction l generalizing a with
  | nil => exact Or.inl rfl
  | cons b t ih =>
    rw [List.foldl_cons]
    rcases ih (min a b) with h | h
    · rw [h]
      rcases min_choice a b with h2 | h2
      · exact Or.inl h2
      · refine Or.inr ?_
        rw [h2]
        exact List.mem_cons_self b t
    · exact Or.inr (List.mem_cons_of_mem b h)

theorem foldl_max_mem (l : List ℚ) (a : ℚ) :
    l.foldl max a = a ∨ l.foldl max a ∈ l := by
  induction l generalizing a with
  | nil => exact Or.inl rfl
  | cons b t ih =>
    rw [List.foldl_cons]
    rcases ih (max a b) with h | h
    · rw [h]
      rcases max_choice a b with h2 | h2
      · exact Or.inl h2
      · refine Or.inr ?_
        rw [h2]
        exact List.mem_cons_self b t
    · exact Or.inr (List.mem_cons_of_mem b h)

theorem listMin_mem {col : List ℚ} (h : col ≠ []) : listMin col ∈ col := by
  cases col with
  | nil => exact absurd rfl h
  | cons b t =>
    rw [listMin]
    rcases foldl_min_mem t b with h2 | h2
    · rw [h2]
      exact List.mem_cons_self b t
    · exact List.mem_cons_of_mem b h2

theorem listMax_mem {col : List ℚ} (h : col ≠ []) : listMax col ∈ col := by
  cases col with
  | nil => exact absurd rfl h
  | cons b t =>
    rw [listMax]
    rcases foldl_max_mem t b with h2 | h2
    · rw [h2]
      exact List.mem_cons_self b t
    · exact List.mem_cons_of_mem b h2

/-- C5: min-max normalization across the candidate set: with strictly
positive spread every value becomes (value − min) / (max − min); when all
values are equal — including a single-candidate set — every normalized
value is exactly 0 (never NaN, never a division error). -/
theorem claim_C5 (col : List ℚ) :
    (listMin col < listMax col →
      normalize col = col.map (fun x => (x - listMin col) / (listMax col - listMin col))) ∧
      ((∀ x ∈ col, ∀ y ∈ col, x = y) → ∀ z ∈ normalize col, z = 0) ∧
      (∀ v : ℚ, ∀ z ∈ normalize [v], z = 0) := by
  refine ⟨?_, ?_, ?_⟩
  · intro h
    rw [normalize, if_pos (sub_pos.mpr h)]
  · intro heq z hz
    by_cases hne : col = []
    · subst hne
      rw [normalize] at hz
      simp at hz
    · have hmm : listMax col = listMin col :=
        heq _ (listMax_mem hne) _ (listMin_mem hne)
      rw [normalize, if_neg (by rw [hmm]; simp)] at hz
      obtain ⟨_, _, rfl⟩ := List.mem_map.mp hz
      rfl
  · intro v z hz
    have h1 : listMin [v] = v := rfl
    have h2 : listMax [v] = v := rfl
    rw [normalize, if_neg (by rw [h1, h2]; simp)] at hz
    obtain ⟨_, _, rfl⟩ := List.mem_map.mp hz
    rfl

/-- Witness for C5 at concrete inputs: the column [1, 3] has positive
spread and is mapped by the min-max formula; the zero-variance column
[2, 2] and the singleton [7] normalize to all zeros. -/
theorem claim_C5_witness :
    (normalize [1, 3] =
      ([1, 3] : List ℚ).map (fun x => (x - listMin [1, 3]) / (listMax [1, 3] - listMin [1, 3]))) ∧
      (∀ z ∈ normalize [2, 2], z = 0) ∧ (∀ z ∈ normalize [(7 : ℚ)], z = 0) :=
  ⟨(claim_C5 [1, 3]).1 (by with_unfolding_all decide),
    (claim_C5 [2, 2]).2.1 (by decide),
    (claim_C5 [2, 2]).2.2 7⟩

/-- C6 (amended): the speed lookup is always positive (45, 50 or 60), so
the time prediction involves no zero divisor; the only guard run before
prediction is the fleet column-name check, which inspects names only; a
zero `fuel_efficiency_km_per_l` value passes that check and the cost
prediction then silently yields a non-finite value, while any nonzero fuel
efficiency yields the finite exact cost. -/
theorem claim_C6 :
    (∀ s : String, 0 < get_speed s) ∧
      (∀ cols : List String, fleet_cols_check cols = true ↔
        ∀ c ∈ required_fleet_cols, c ∈ cols) ∧
      (∀ (distance traffic tolls : ℚ) (v : Vehicle),
        v.fuel_efficiency_km_per_l = 0 →
        predicted_cost_float distance traffic tolls v = none) ∧
      (∀ (distance traffic tolls : ℚ) (v : Vehicle),
        v.fuel_efficiency_km_per_l ≠ 0 →
        predicted_cost_float distance traffic tolls v =
          some ((distance / v.fuel_efficiency_km_per_l) * ASSUMED_FUEL_PRICE_PER_LITER +
            (distance / get_speed v.vehicle_type + traffic) * ASSUMED_LABOR_COST_PER_HOUR
            + tolls)) := by
  refine ⟨?_, ?_, ?_, ?_⟩
  · intro s
    rw [get_speed]
    split_ifs <;> norm_num
  · intro cols
    simp [fleet_cols_check, List.all_eq_true]
  · intro distance traffic tolls v h
    rw [predicted_cost_float, floatDiv, if_pos h]
    rfl
  · intro distance traffic tolls v h
    rw [predicted_cost_float, floatDiv, if_neg h]
    rfl

/-- C6 is violated by the code on a zero fuel efficiency: the column check
passes (it looks at names only) while the cost prediction is non-finite;
the code reports nothing.  The speed divisor, in contrast, is never zero. -/
theorem claim_C6_counterexample :
    fleet_cols_check required_fleet_cols = true ∧
      zero_eff_vehicle.fuel_efficiency_km_per_l = 0 ∧
      predicted_cost_float 100 1 5 zero_eff_vehicle = none :=
  ⟨by decide, rfl, by with_unfolding_all rfl⟩

/-- Witness for the amended C6: positive speed for the refrigerated type,
non-finite cost on the zero-efficiency van, finite cost 220/3 on the
scenario van. -/
theorem claim_C6_witness :
    (0 : ℚ) < get_speed "refrigerated unit" ∧
      predicted_cost_float 100 1 5 zero_eff_vehicle = none ∧
      predicted_cost_float 100 1 5 scenario_van = some (220/3) := by
  refine ⟨claim_C6.1 "refrigerated unit",
    claim_C6.2.2.1 100 1 5 zero_eff_vehicle rfl, ?_⟩
  rw [claim_C6.2.2.2 100 1 5 scenario_van (by norm_num [scenario_van])]
  with_unfolding_all rfl

/-- C8: the recommendation logic reports the distinct no-suitable-vehicle
signal exactly when the eligible set is empty (so an empty ranked table is
never produced), and in particular a Food & Beverage order against a fleet
with no refrigerated unit always yields that signal. -/
theorem claim_C8 (o : OrderDetails) (fleet : List Vehicle) (wc wt wco : ℚ) :
    (optimize_dispatch o fleet wc wt wco = Except.error DispatchError.noSuitableVehicle ↔
      suitable_vehicles o fleet = []) ∧
      (∀ ranked, optimize_dispatch o fleet wc wt wco = Except.ok ranked →
        suitable_vehicles o fleet ≠ []) ∧
      (o.product_category = "Food & Beverage" →
        (∀ v ∈ fleet, v.vehicle_type ≠ "refrigerated unit") →
        optimize_dispatch o fleet wc wt wco =
          Except.error DispatchError.noSuitableVehicle) := by
  have hiff : optimize_dispatch o fleet wc wt wco =
      Except.error DispatchError.noSuitableVehicle ↔ suitable_vehicles o fleet = [] := by
    by_cases h : suitable_vehicles o fleet = []
    · simp [optimize_dispatch, h]
    · simp [optimize_dispatch, List.isEmpty_iff, h]
  refine ⟨hiff, ?_, fun hcat hnone => hiff.mpr ?_⟩
  · intro ranked hok hempty
    rw [hiff.mpr hempty] at hok
    cases hok
  · have hper : is_perishable o.product_category = true := by
      rw [hcat]
      rfl
    rw [suitable_vehicles, if_pos hper, List.filter_eq_nil_iff]
    intro v hv
    simpa using hnone v hv

/-- Witness for C8 at a concrete input: the perishable Food & Beverage
order against a fleet holding only a van is answered by the distinct
no-suitable-vehicle signal. -/
theorem claim_C8_witness :
    optimize_dispatch fb_order [scenario_van] (1/2) (3/10) (1/5) =
      Except.error DispatchError.noSuitableVehicle :=
  (claim_C8 fb_order [scenario_van] (1/2) (3/10) (1/5)).2.2 rfl (by decide)

theorem aqsort_small (v : List ℚ) (fuel : ℕ) (ts : List ℕ) (pl pr budget : ℕ)
    (hf : 0 < fuel) (hpr : pr - pl ≤ 15) :
    (aqsort v fuel ts pl pr budget).1 = insertSeg v ts pl pr := by
  cases fuel with
  | zero => omega
  | succ f =>
    rw [aqsort, if_neg (by omega)]

theorem insertSeg_full (v : List ℚ) (ts : List ℕ) (h : ts ≠ []) :
    insertSeg v ts 0 (ts.length - 1) = List.insertionSort (leIdx v) ts := by
  have hpos : 0 < ts.length := List.length_pos.mpr h
  rw [insertSeg]
  have hlen : ts.length - 1 + 1 - 0 = ts.length := by omega
  rw [List.take_zero, List.drop_zero, hlen, List.take_length, List.nil_append]
  have hdrop : ts.drop (ts.length - 1 + 1) = [] := List.drop_eq_nil_of_le (by omega)
  rw [hdrop, List.append_nil]

theorem np_argsort_small (v : List ℚ) (h : v.length ≤ 16) :
    np_argsort v = List.insertionSort (leIdx v) (List.range v.length) := by
  rw [np_argsort]
  by_cases h0 : v.length = 0
  · rw [h0]
    rfl
  · rw [aqsort_small v v.length (List.range v.length) 0 (v.length - 1)
      (Nat.log2 v.length * 2 + 1) (by omega) (by omega)]
    have hr := insertSeg_full v (List.range v.length)
      (by rw [Ne, List.range_eq_nil]; exact h0)
    rw [List.length_range] at hr
    exact hr

theorem filter_insertionSort_key (v : List ℚ) (q : ℚ) :
    ∀ l : List ℕ,
      (List.insertionSort (leIdx v) l).filter (fun i => decide (vget v i = q)) =
        l.filter (fun i => decide (vget v i = q))
  | [] => rfl
  | a :: t => by
    rw [List.insertionSort, List.orderedInsert_eq_take_drop, List.filter_append]
    have ih := filter_insertionSort_key v q t
    by_cases hq : vget v a = q
    · have htw : ((List.insertionSort (leIdx v) t).takeWhile
          (fun b => decide ¬leIdx v a b)).filter (fun i => decide (vget v i = q)) = [] := by
        rw [List.filter_eq_nil_iff]
        intro b hb
        have hblt := List.mem_takeWhile_imp hb
        simp only [decide_eq_true_eq] at hblt
        rw [leIdx, not_le] at hblt
        simp only [decide_eq_true_eq]
        intro hbq
        rw [hq, hbq] at hblt
        exact lt_irrefl q hblt
      rw [htw, List.nil_append, List.filter_cons, if_pos (by simp [hq]),
        List.filter_cons, if_pos (by simp [hq])]
      congr 1
      have hsplit : ((List.insertionSort (leIdx v) t).takeWhile
            (fun b => decide ¬leIdx v a b)).filter (fun i => decide (vget v i = q)) ++
          ((List.insertionSort (leIdx v) t).dropWhile
            (fun b => decide ¬leIdx v a b)).filter (fun i => decide (vget v i = q)) =
          (List.insertionSort (leIdx v) t).filter (fun i => decide (vget v i = q)) := by
        rw [← List.filter_append, List.takeWhile_append_dropWhile]
      rw [htw, List.nil_append] at hsplit
      rw [hsplit, ih]
    · rw [List.filter_cons, if_neg (by simp [hq]), List.filter_cons,
        if_neg (by simp [hq]), ← List.filter_append, List.takeWhile_append_dropWhile, ih]

theorem filterMap_get?_eq_map (rows : List ScoredVehicle) :
    ∀ idx : List ℕ, (∀ i ∈ idx, i < rows.length) →
      idx.filterMap (fun i => rows.get? i) = idx.map (fun i => rows.getD i default)
  | [], _ => rfl
  | i :: t, h => by
    have hi : i < rows.length := h i (List.mem_cons_self i t)
    have hg : rows.get? i = some (rows.getD i default) := by
      rw [List.get?_eq_getElem?, List.getElem?_eq_getElem hi, List.getD_eq_getElem rows default hi]
    rw [List.map_cons, List.filterMap_cons, hg]
    exact congrArg _ (filterMap_get?_eq_map rows t
      (fun j hj => h j (List.mem_cons_of_mem i hj)))

theorem map_getD_range (rows : List ScoredVehicle) :
    (List.range rows.length).map (fun i => rows.getD i default) = rows := by
  apply List.ext_getElem
  · rw [List.length_map, List.length_range]
  · intro i h1 h2
    rw [List.getElem_map, List.getElem_range, List.getD_eq_getElem rows default h2]

/-- C4 (amended): for candidate sets of at most 16 rows — the regime in
which numpy's introsort runs a pure insertion sort — the ranked output is a
permutation of the candidate rows sorted ascending by optimization score,
its first row has minimal score, and equal-score candidates keep their
original relative order (the argsort of the score column restricted to any
fixed score value is the identity on positions).  Beyond 16 rows the pandas
default quicksort may reorder equal-score candidates. -/
theorem claim_C4 (rows : List ScoredVehicle) (hlen : rows.length ≤ 16) :
    (sort_values rows).Perm rows ∧
      List.Sorted (fun a b : ScoredVehicle =>
        a.optimization_score ≤ b.optimization_score) (sort_values rows) ∧
      (∀ b, (sort_values rows).head? = some b →
        ∀ r ∈ sort_values rows, b.optimization_score ≤ r.optimization_score) ∧
      (∀ q : ℚ,
        (np_argsort (rows.map (fun r => r.optimization_score))).filter
          (fun i => decide (vget (rows.map (fun r => r.optimization_score)) i = q)) =
        (List.range rows.length).filter
          (fun i => decide (vget (rows.map (fun r => r.optimization_score)) i = q))) := by
  set scores := rows.map (fun r => r.optimization_score) with hscores
  have hsl : scores.length = rows.length := by rw [hscores, List.length_map]
  have hargs : np_argsort scores = List.insertionSort (leIdx scores) (List.range scores.length) :=
    np_argsort_small scores (by omega)
  have hperm_range : (np_argsort scores).Perm (List.range scores.length) := by
    rw [hargs]
    exact List.perm_insertionSort _ _
  have hmem : ∀ i ∈ np_argsort scores, i < rows.length := by
    intro i hi
    have hm := hperm_range.mem_iff.mp hi
    rw [List.mem_range] at hm
    omega
  have hsv : sort_values rows = (np_argsort scores).map (fun i => rows.getD i default) := by
    rw [sort_values, ← hscores]
    exact filterMap_get?_eq_map rows (np_argsort scores) hmem
  have hsorted_idx : List.Sorted (leIdx scores) (np_argsort scores) := by
    rw [hargs]
    exact List.sorted_insertionSort _ _
  have hval : ∀ i, i < rows.length →
      vget scores i = (rows.getD i default).optimization_score := by
    intro i hi
    rw [vget, hscores, List.getD_eq_getElem _ _ (by rw [List.length_map]; exact hi),
      List.getElem_map, List.getD_eq_getElem rows default hi]
  have hsorted_rows : List.Sorted (fun a b : ScoredVehicle =>
      a.optimization_score ≤ b.optimization_score) (sort_values rows) := by
    rw [hsv]
    refine List.pairwise_map.mpr ?_
    refine List.Pairwise.imp_of_mem ?_ hsorted_idx
    intro a b ha hb hab
    rw [← hval a (hmem a ha), ← hval b (hmem b hb)]
    exact hab
  refine ⟨?_, hsorted_rows, ?_, ?_⟩
  · rw [hsv]
    have heq : (List.range scores.length).map (fun i => rows.getD i default) = rows := by
      rw [hsl]
      exact map_getD_range rows
    have hp := hperm_range.map (fun i => rows.getD i default)
    rw [heq] at hp
    exact hp
  · intro b hb r hr
    cases hout : sort_values rows with
    | nil =>
      rw [hout] at hb
      cases hb
    | cons x xs =>
      rw [hout] at hb hr hsorted_rows
      rw [List.head?_cons, Option.some.injEq] at hb
      subst hb
      rcases List.mem_cons.mp hr with hrx | hrx
      · rw [hrx]
      · exact List.rel_of_sorted_cons hsorted_rows r hrx
  · intro q
    rw [hargs, hsl]
    exact filter_insertionSort_key scores q (List.range rows.length)

/-- Witness for the amended C4 at a concrete input: two rows with equal
scores are ranked, staying in their original order. -/
theorem claim_C4_witness :
    (sort_values tie_rows).Perm tie_rows ∧
      List.Sorted (fun a b : ScoredVehicle =>
        a.optimization_score ≤ b.optimization_score) (sort_values tie_rows) ∧
      (∀ b, (sort_values tie_rows).head? = some b →
        ∀ r ∈ sort_values tie_rows, b.optimization_score ≤ r.optimization_score) ∧
      (∀ q : ℚ,
        (np_argsort (tie_rows.map (fun r => r.optimization_score))).filter
          (fun i => decide (vget (tie_rows.map (fun r => r.optimization_score)) i = q)) =
        (List.range tie_rows.length).filter
          (fun i => decide (vget (tie_rows.map (fun r => r.optimization_score)) i = q))) :=
  claim_C4 tie_rows (by norm_num [tie_rows])

set_option maxRecDepth 100000 in
/-- C4 as stated is false on the code for more than 16 candidates:
`sort_values` uses the pandas default quicksort (numpy introsort), whose
partitioning step is not stable.  For a non-perishable order against 17
identical vans (distinct ids "0".."16"), every candidate receives the same
optimization score 0, yet the ranked output permutes the candidates instead
of keeping fleet order. -/
theorem claim_C4_counterexample :
    suitable_vehicles clothing_std_order tie_fleet = tie_fleet ∧
      optimize_dispatch clothing_std_order tie_fleet (1/2) (3/10) (1/5) =
        Except.ok (sort_values (score_rows (1/2) (3/10) (1/5) 100 1 5 tie_fleet)) ∧
      (sort_values (score_rows (1/2) (3/10) (1/5) 100 1 5 tie_fleet)).map
          (fun r => r.optimization_score) = List.replicate 17 0 ∧
      (sort_values (score_rows (1/2) (3/10) (1/5) 100 1 5 tie_fleet)).map
          (fun r => r.vehicle.vehicle_id) =
        ["0", "14", "13", "12", "11", "10", "9", "15", "8", "6", "5", "4",
          "3", "2", "1", "7", "16"] ∧
      tie_fleet.map (fun v => v.vehicle_id) =
        ["0", "1", "2", "3", "4", "5", "6", "7", "8", "9", "10", "11", "12",
          "13", "14", "15", "16"] ∧
      (["0", "14", "13", "12", "11", "10", "9", "15", "8", "6", "5", "4",
          "3", "2", "1", "7", "16"] : List String) ≠
        ["0", "1", "2", "3", "4", "5", "6", "7", "8", "9", "10", "11", "12",
          "13", "14", "15", "16"] := by
  refine ⟨by with_unfolding_all rfl, by with_unfolding_all rfl,
    by with_unfolding_all rfl, by with_unfolding_all rfl,
    by with_unfolding_all rfl, by decide⟩

end NextGen

